import Mathlib

/-!
Shallow embedding of the ipchess daemon's Challenge Protocol Core
(src/daemon/src/protocol/{behaviour,handler,ipchessproto}.rs) and proofs
about its behaviour.  Byte strings are lists of naturals, peer identifiers
and instants are naturals, hash maps are association lists whose insert
replaces the previous binding, and the SHA-256 digest, the random source
and the monotonic clock are passed in as parameters.
-/

namespace IpchessDaemon

/-- Byte strings (Vec of u8 in the source) are modelled as lists of naturals. -/
abbrev Bytes := List Nat

/-- Peer identifiers are opaque hashable keys; modelled as naturals. -/
abbrev PeerId := Nat

/-- Instants of the monotonic clock, modelled as naturals counting seconds. -/
abbrev Instant := Nat

/-- Multiaddresses are opaque; modelled as naturals. -/
abbrev Multiaddr := Nat

/-- HashMap::get, modelled on association lists: first binding of the key. -/
def alookup (k : PeerId) : List (PeerId × α) → Option α
  | [] => none
  | (k0, v) :: rest => if k0 = k then some v else alookup k rest

/-- HashMap::insert, which replaces any previous binding of the key. -/
def ainsert (k : PeerId) (v : α) (m : List (PeerId × α)) : List (PeerId × α) :=
  (k, v) :: m.filter (fun e => e.1 ≠ k)

/-- HashMap::remove, which drops the binding of the key. -/
def aremove (k : PeerId) (m : List (PeerId × α)) : List (PeerId × α) :=
  m.filter (fun e => e.1 ≠ k)

/-- HashMap::contains_key. -/
def acontains (k : PeerId) (m : List (PeerId × α)) : Bool :=
  (alookup k m).isSome

namespace ipchessproto

/-- Body of the Challenge frame (ipchessproto.rs). -/
structure Challenge where
  commitment : Bytes
deriving DecidableEq

/-- Body of the ChallengeAccept frame. -/
structure ChallengeAccept where
  random : Bytes
deriving DecidableEq

/-- Body of the ChallengeReveal frame. -/
structure ChallengeReveal where
  preimage : Bytes
deriving DecidableEq

/-- The wire payload: a tagged union over five variants (protobuf tags 1-5),
exactly as declared in ipchessproto.rs. -/
inductive Payload
  | Challenge (c : Challenge)
  | ChallengeAccept (a : ChallengeAccept)
  | ChallengeReveal (r : ChallengeReveal)
  | ChallengeCancel
  | ChallengeDecline
deriving DecidableEq

/-- The protobuf field tag of each payload variant, read off the prost
attributes in ipchessproto.rs. -/
def Payload.tag : Payload → Nat
  | .Challenge _ => 1
  | .ChallengeAccept _ => 2
  | .ChallengeReveal _ => 3
  | .ChallengeCancel => 4
  | .ChallengeDecline => 5

/-- The framed wire message: an optional payload. -/
structure Message where
  payload : Option Payload
deriving DecidableEq

end ipchessproto

/-- Commands the behaviour sends to a connection handler.  handler.rs declares
only the first four constructors; behaviour.rs additionally constructs
ChallengeCanceled (in cancel_challenge) and ChallengeDeclined (in
decline_peer_challenge) under this very type name, so the model carries all
six and the handler functions are undefined on the two extras. -/
inductive IpchessHandlerEventIn
  | Challenge (commitment : Bytes)
  | ChallengeAccept (random : Bytes)
  | ChallengeReveal (preimage : Bytes)
  | ChallengePoisoned
  | ChallengeCanceled
  | ChallengeDeclined
deriving DecidableEq

/-- Events a connection handler reports to the behaviour.  handler.rs declares
only the first three constructors; behaviour.rs matches on the two extra
ones in its inject_event, so the model carries all five. -/
inductive IpchessHandlerEventOut
  | ChallengeReceived (commitment : Bytes)
  | ChallengeRevealReceived (preimage : Bytes)
  | ChallengeAccepted (random : Bytes)
  | ChallengeCanceled
  | ChallengeDeclined
deriving DecidableEq

/-- Challenge sent to a peer (behaviour.rs, struct OutboundChallenge). -/
structure OutboundChallenge where
  preimage : Bytes
  timestamp : Instant
deriving DecidableEq

/-- States a challenge received from a peer is allowed to be in
(behaviour.rs, enum InboundChallenge). -/
inductive InboundChallenge
  | Received (commitment : Bytes)
  | PendingPreimage (commitment : Bytes) (random : Bytes) (timestamp : Instant)
deriving DecidableEq

/-- An accepted challenge carrying the negotiated pair. -/
structure AcceptedChallenge where
  preimage : Bytes
  random : Bytes
deriving DecidableEq

/-- Direction of a timed-out challenge. -/
inductive ChallengeDirection
  | Inbound
  | Outbound
deriving DecidableEq

/-- Domain errors (behaviour.rs, enum IpchessError).  Note that the source
declares exactly these two variants: there is no ChallengePoisoned error. -/
inductive IpchessError
  | ChallengeCommitmentPreimageMismatch
  | ChallengeTimeout (peer_id : PeerId) (direction : ChallengeDirection)
deriving DecidableEq

/-- Domain events the behaviour produces for the caller. -/
inductive IpchessEvent
  | PeerChallenge (peer_id : PeerId)
  | ChallengeAccepted (peer_id : PeerId) (challenge : AcceptedChallenge)
  | ChallengeDeclined (peer_id : PeerId)
  | ChallengeCanceled (peer_id : PeerId)
  | Error (e : IpchessError)
deriving DecidableEq

/-- The actions the behaviour pushes for the overlay runtime.  Every
NotifyHandler in behaviour.rs uses the NotifyHandler::Any selector, so the
selector is not modelled.  DialPeer is part of the libp2p action type and is
included so that its absence from the queue can be stated; behaviour.rs
never constructs it. -/
inductive NBAction
  | GenerateEvent (ev : IpchessEvent)
  | NotifyHandler (peer_id : PeerId) (event : IpchessHandlerEventIn)
  | DialPeer (peer_id : PeerId)
deriving DecidableEq

/-- Whether an action is a GenerateEvent (a domain event for the caller). -/
def NBAction.isGenerateEvent : NBAction → Bool
  | .GenerateEvent _ => true
  | _ => false

/-- Whether an action is a DialPeer request. -/
def NBAction.isDialPeer : NBAction → Bool
  | .DialPeer _ => true
  | _ => false

/-- Behaviour configuration (behaviour.rs, struct IpchessConfig). -/
structure IpchessConfig where
  challenge_accept_timeout : Nat
  challenge_preimage_timeout : Nat
deriving DecidableEq

/-- Default configuration: 5 minutes and 15 seconds, counted in seconds. -/
def IpchessConfig.default : IpchessConfig :=
  { challenge_accept_timeout := 5 * 60, challenge_preimage_timeout := 15 }

/-- The behaviour state (behaviour.rs, struct Ipchess).  The events VecDeque
is a list whose head is the front. -/
structure Ipchess where
  config : IpchessConfig
  events : List NBAction
  outbound_challenges : List (PeerId × OutboundChallenge)
  inbound_challenges : List (PeerId × InboundChallenge)
  peer_addresses : List (PeerId × List Multiaddr)
deriving DecidableEq

/-- Ipchess::new. -/
def Ipchess.new : Ipchess :=
  { config := .default, events := [], outbound_challenges := [],
    inbound_challenges := [], peer_addresses := [] }

/-- Ipchess::add_address: insert the address into the peer's set. -/
def Ipchess.add_address (peer_id : PeerId) (addr : Multiaddr) (s : Ipchess) : Ipchess :=
  let addrs := (alookup peer_id s.peer_addresses).getD []
  let addrs1 := if addr ∈ addrs then addrs else addrs ++ [addr]
  { s with peer_addresses := ainsert peer_id addrs1 s.peer_addresses }

/-- Ipchess::challenge_peer.  The random draw of the preimage and the clock
reading are passed in as rng and now. -/
def Ipchess.challenge_peer (sha256 : Bytes → Bytes) (rng : Bytes) (now : Instant)
    (peer_id : PeerId) (s : Ipchess) : Ipchess :=
  if acontains peer_id s.outbound_challenges then s
  else
    let preimage := rng
    let commitment := sha256 preimage
    { s with
      outbound_challenges :=
        ainsert peer_id { preimage := preimage, timestamp := now } s.outbound_challenges,
      events := s.events ++ [.NotifyHandler peer_id (.Challenge commitment)] }

/-- Ipchess::accept_peer_challenge.  The random draw is passed in as rng. -/
def Ipchess.accept_peer_challenge (rng : Bytes) (now : Instant) (peer_id : PeerId)
    (s : Ipchess) : Ipchess :=
  match alookup peer_id s.inbound_challenges with
  | none => s
  | some challenge_data =>
    let inb := aremove peer_id s.inbound_challenges
    match challenge_data with
    | .Received commitment =>
        let random := rng
        { s with
          events := s.events ++ [.NotifyHandler peer_id (.ChallengeAccept random)],
          inbound_challenges :=
            ainsert peer_id (.PendingPreimage commitment random now) inb }
    | .PendingPreimage c r t =>
        { s with inbound_challenges := ainsert peer_id (.PendingPreimage c r t) inb }

/-- Ipchess::cancel_challenge. -/
def Ipchess.cancel_challenge (peer_id : PeerId) (s : Ipchess) : Ipchess :=
  if acontains peer_id s.outbound_challenges then
    { s with
      outbound_challenges := aremove peer_id s.outbound_challenges,
      events := s.events ++ [.NotifyHandler peer_id .ChallengeCanceled] }
  else s

/-- Ipchess::decline_peer_challenge. -/
def Ipchess.decline_peer_challenge (peer_id : PeerId) (s : Ipchess) : Ipchess :=
  if acontains peer_id s.inbound_challenges then
    { s with
      inbound_challenges := aremove peer_id s.inbound_challenges,
      events := s.events ++ [.NotifyHandler peer_id .ChallengeDeclined] }
  else s

/-- NetworkBehaviour::inject_connected for Ipchess: the source body is empty. -/
def Ipchess.inject_connected (_peer_id : PeerId) (s : Ipchess) : Ipchess := s

/-- NetworkBehaviour::inject_disconnected for Ipchess: the source body is empty. -/
def Ipchess.inject_disconnected (_peer_id : PeerId) (s : Ipchess) : Ipchess := s

/-- NetworkBehaviour::inject_event for Ipchess: reaction to a handler-out
event from a peer's connection handler. -/
def Ipchess.inject_event (sha256 : Bytes → Bytes) (peer_id : PeerId)
    (event : IpchessHandlerEventOut) (s : Ipchess) : Ipchess :=
  match event with
  | .ChallengeReceived commitment =>
      { s with
        inbound_challenges := ainsert peer_id (.Received commitment) s.inbound_challenges,
        events := s.events ++ [.GenerateEvent (.PeerChallenge peer_id)] }
  | .ChallengeRevealReceived preimage =>
      match alookup peer_id s.inbound_challenges with
      | none => s
      | some inbound_challenge =>
        let inb := aremove peer_id s.inbound_challenges
        match inbound_challenge with
        | .PendingPreimage commitment random _ =>
            if sha256 preimage = commitment then
              { s with
                inbound_challenges := inb,
                events := s.events ++
                  [.GenerateEvent (.ChallengeAccepted peer_id
                      { preimage := preimage, random := random })] }
            else
              { s with
                inbound_challenges := inb,
                events := s.events ++
                  [.NotifyHandler peer_id .ChallengePoisoned,
                   .GenerateEvent (.Error .ChallengeCommitmentPreimageMismatch)] }
        | .Received _ =>
            { s with
              inbound_challenges := inb,
              events := s.events ++ [.NotifyHandler peer_id .ChallengePoisoned] }
  | .ChallengeAccepted random =>
      match alookup peer_id s.outbound_challenges with
      | none => s
      | some sent_challenge =>
        { s with
          outbound_challenges := aremove peer_id s.outbound_challenges,
          events := s.events ++
            [.NotifyHandler peer_id (.ChallengeReveal sent_challenge.preimage),
             .GenerateEvent (.ChallengeAccepted peer_id
                { preimage := sent_challenge.preimage, random := random })] }
  | .ChallengeCanceled =>
      if acontains peer_id s.inbound_challenges then
        { s with
          inbound_challenges := aremove peer_id s.inbound_challenges,
          events := s.events ++ [.GenerateEvent (.ChallengeCanceled peer_id)] }
      else s
  | .ChallengeDeclined =>
      if acontains peer_id s.outbound_challenges then
        { s with
          outbound_challenges := aremove peer_id s.outbound_challenges,
          events := s.events ++ [.GenerateEvent (.ChallengeDeclined peer_id)] }
      else s

/-- Result of polling the behaviour. -/
inductive BPoll (α : Type)
  | Ready (a : α)
  | Pending
deriving DecidableEq

/-- Keys of the outbound challenges strictly older than the timeout. -/
def timedOutOutboundKeys (now : Instant) (timeout : Nat)
    (m : List (PeerId × OutboundChallenge)) : List PeerId :=
  m.filterMap (fun e => if now - e.2.timestamp > timeout then some e.1 else none)

/-- Keys of the inbound challenges in state PendingPreimage strictly older
than the timeout; Received entries are never selected. -/
def timedOutInboundKeys (now : Instant) (timeout : Nat)
    (m : List (PeerId × InboundChallenge)) : List PeerId :=
  m.filterMap (fun e =>
    match e.2 with
    | .Received _ => none
    | .PendingPreimage _ _ timestamp =>
        if now - timestamp > timeout then some e.1 else none)

/-- The removal loop for timed-out outbound challenges: remove each key and
push the corresponding Timeout error event. -/
def clearOutbound (keys : List PeerId) (s : Ipchess) : Ipchess :=
  keys.foldl (fun acc p =>
    { acc with
      outbound_challenges := aremove p acc.outbound_challenges,
      events := acc.events ++
        [.GenerateEvent (.Error (.ChallengeTimeout p .Outbound))] }) s

/-- The removal loop for timed-out inbound challenges. -/
def clearInbound (keys : List PeerId) (s : Ipchess) : Ipchess :=
  keys.foldl (fun acc p =>
    { acc with
      inbound_challenges := aremove p acc.inbound_challenges,
      events := acc.events ++
        [.GenerateEvent (.Error (.ChallengeTimeout p .Inbound))] }) s

/-- NetworkBehaviour::poll for Ipchess: drain the front of the event queue if
any; otherwise clear timed-out challenges, queue their error events, and
return Pending.  The clock reading is passed in as now. -/
def Ipchess.poll (now : Instant) (s : Ipchess) : BPoll NBAction × Ipchess :=
  match s.events with
  | e :: rest => (.Ready e, { s with events := rest })
  | [] =>
    let s1 := clearOutbound
      (timedOutOutboundKeys now s.config.challenge_accept_timeout s.outbound_challenges) s
    let s2 := clearInbound
      (timedOutInboundKeys now s1.config.challenge_preimage_timeout s1.inbound_challenges) s1
    (.Pending, s2)

/-- A boxed I/O future is modelled as an opaque handle; what a single poll of
it yields is supplied by the scheduling environment. -/
abbrev FutId := Nat

/-- Handler error classes (handler.rs, enum IpchessHandlerError); the causes
carried by the I/O variants are not modelled. -/
inductive IpchessHandlerError
  | ProtobufEncode
  | ProtobufDecode
  | SubstreamWrite
  | SubstreamRead
  | SubstreamFlush
  | Poisoned
deriving DecidableEq

/-- Per-substream state machine (handler.rs, enum SubstreamState). -/
inductive SubstreamState
  | PendingOpen (msg : ipchessproto.Message)
  | PendingSend (fut : FutId)
  | WaitingMessage (fut : FutId)
deriving DecidableEq

/-- Keep-alive policy for a connection. -/
inductive KeepAlive
  | Yes
  | Until (t : Instant)
  | No
deriving DecidableEq

/-- The connection handler state (handler.rs, struct IpchessHandler). -/
structure IpchessHandler where
  substream_states : List SubstreamState
  handler_error_received : Bool
  keep_alive : KeepAlive
deriving DecidableEq

/-- IpchessHandler::new. -/
def IpchessHandler.new : IpchessHandler :=
  { substream_states := [], handler_error_received := false, keep_alive := .Yes }

/-- ProtocolsHandler::inject_event for IpchessHandler.  The match in
handler.rs covers only Challenge, ChallengeAccept, ChallengeReveal and
ChallengePoisoned: its declaration of IpchessHandlerEventIn has no
ChallengeCanceled or ChallengeDeclined variant even though behaviour.rs
constructs both, so on those two commands the function is undefined (none). -/
def IpchessHandler.inject_event (h : IpchessHandler) :
    IpchessHandlerEventIn → Option IpchessHandler
  | .Challenge commitment =>
      some { h with substream_states := h.substream_states ++
        [.PendingOpen { payload := some (.Challenge { commitment := commitment }) }] }
  | .ChallengeAccept random =>
      some { h with substream_states := h.substream_states ++
        [.PendingOpen { payload := some (.ChallengeAccept { random := random }) }] }
  | .ChallengeReveal preimage =>
      some { h with substream_states := h.substream_states ++
        [.PendingOpen { payload := some (.ChallengeReveal { preimage := preimage }) }] }
  | .ChallengePoisoned =>
      some { h with handler_error_received := true }
  | .ChallengeCanceled => none
  | .ChallengeDeclined => none

/-- ProtocolsHandler::inject_fully_negotiated_inbound: push a WaitingMessage
record holding the read future. -/
def IpchessHandler.inject_fully_negotiated_inbound (fut : FutId)
    (h : IpchessHandler) : IpchessHandler :=
  { h with substream_states := h.substream_states ++ [.WaitingMessage fut] }

/-- ProtocolsHandler::inject_fully_negotiated_outbound: push a PendingSend
record holding the write future (the message is captured inside it). -/
def IpchessHandler.inject_fully_negotiated_outbound (fut : FutId)
    (_msg : ipchessproto.Message) (h : IpchessHandler) : IpchessHandler :=
  { h with substream_states := h.substream_states ++ [.PendingSend fut] }

/-- ProtocolsHandler::inject_dial_upgrade_error: switch keep-alive off. -/
def IpchessHandler.inject_dial_upgrade_error (h : IpchessHandler) : IpchessHandler :=
  { h with keep_alive := .No }

/-- Outcome of polling a boxed future once. -/
inductive FutPoll (α : Type)
  | ready (r : Except IpchessHandlerError α)
  | pending

/-- Scheduling environment for one handler poll: what each write future and
each read future yields when polled, and the clock reading. -/
structure PollEnv where
  sendRes : FutId → FutPoll Unit
  recvRes : FutId → FutPoll ipchessproto.Message
  now : Instant

/-- What a handler poll returns to the overlay runtime. -/
inductive HandlerPollOut
  | Close (e : IpchessHandlerError)
  | OutboundSubstreamRequest (msg : ipchessproto.Message)
  | Custom (e : IpchessHandlerEventOut)
  | Pending
deriving DecidableEq

/-- One iteration body of the substream loop in handler.rs poll: either an
early return value, or the state to retain (none when the record completed).
The outer Option is none when a decoded payload hits the arms missing from
handler.rs (the ChallengeCancel and ChallengeDecline frames, tags 4 and 5,
have no match arm there). -/
def pollSubstream (env : PollEnv) :
    SubstreamState → Option (HandlerPollOut ⊕ Option SubstreamState)
  | .PendingOpen msg => some (Sum.inl (.OutboundSubstreamRequest msg))
  | .PendingSend fut =>
      match env.sendRes fut with
      | .ready (.ok _) => some (Sum.inr none)
      | .ready (.error e) => some (Sum.inl (.Close e))
      | .pending => some (Sum.inr (some (.PendingSend fut)))
  | .WaitingMessage fut =>
      match env.recvRes fut with
      | .ready (.ok msg) =>
          match msg.payload with
          | some (.Challenge c) =>
              some (Sum.inl (.Custom (.ChallengeReceived c.commitment)))
          | some (.ChallengeAccept a) =>
              some (Sum.inl (.Custom (.ChallengeAccepted a.random)))
          | some (.ChallengeReveal r) =>
              some (Sum.inl (.Custom (.ChallengeRevealReceived r.preimage)))
          | some .ChallengeCancel => none
          | some .ChallengeDecline => none
          | none => some (Sum.inr none)
      | .ready (.error e) => some (Sum.inl (.Close e))
      | .pending => some (Sum.inr (some (.WaitingMessage fut)))

/-- The reversed-index swap_remove loop of handler.rs poll: the source
processes the original records from last to first, retaining unfinished ones.
The first argument is the reversed list of unprocessed records, the second
the records retained so far.  On an early return the remaining vector is the
unprocessed records (restored to their order) together with the retained
ones. -/
def pollLoopRev (env : PollEnv) :
    List SubstreamState → List SubstreamState →
    Option ((HandlerPollOut × List SubstreamState) ⊕ List SubstreamState)
  | [], retained => some (Sum.inr retained)
  | st :: rest, retained =>
    match pollSubstream env st with
    | none => none
    | some (Sum.inl out) => some (Sum.inl (out, rest.reverse ++ retained))
    | some (Sum.inr kept) => pollLoopRev env rest (retained ++ kept.toList)

/-- ProtocolsHandler::poll for IpchessHandler: a poisoned handler immediately
requests Close(Poisoned); an idle handler returns Pending; otherwise the
substream loop runs, and if it finishes the keep-alive is refreshed.  The
result is none only when the loop hits code missing from handler.rs. -/
def IpchessHandler.poll (env : PollEnv) (h : IpchessHandler) :
    Option (HandlerPollOut × IpchessHandler) :=
  if h.handler_error_received then
    some (.Close .Poisoned, h)
  else if h.substream_states.isEmpty then
    some (.Pending, h)
  else
    match pollLoopRev env h.substream_states.reverse [] with
    | none => none
    | some (Sum.inl (out, v)) => some (out, { h with substream_states := v })
    | some (Sum.inr v) =>
        let ka := if v.isEmpty then KeepAlive.Until (env.now + 30) else KeepAlive.Yes
        some (.Pending, { h with substream_states := v, keep_alive := ka })

/-- The operations the overlay runtime can apply to a connection handler. -/
inductive HandlerOp
  | injectEvent (e : IpchessHandlerEventIn)
  | negotiatedInbound (fut : FutId)
  | negotiatedOutbound (fut : FutId) (msg : ipchessproto.Message)
  | dialUpgradeError
  | pollOp (env : PollEnv)

/-- Apply one handler operation; none marks a run into code missing from
handler.rs. -/
def HandlerOp.apply : HandlerOp → IpchessHandler → Option IpchessHandler
  | .injectEvent e, h => h.inject_event e
  | .negotiatedInbound fut, h => some (h.inject_fully_negotiated_inbound fut)
  | .negotiatedOutbound fut msg, h => some (h.inject_fully_negotiated_outbound fut msg)
  | .dialUpgradeError, h => some h.inject_dial_upgrade_error
  | .pollOp env, h => (h.poll env).map Prod.snd

/-- Apply a sequence of handler operations. -/
def applyHandlerOps : List HandlerOp → IpchessHandler → Option IpchessHandler
  | [], h => some h
  | op :: rest, h => (op.apply h).bind (applyHandlerOps rest)

/-- The operations of the behaviour: local commands, overlay callbacks and
polls.  The random draws and clock readings each operation performs are
carried as arguments. -/
inductive BehaviourOp
  | challengePeer (rng : Bytes) (now : Instant) (peer_id : PeerId)
  | acceptPeerChallenge (rng : Bytes) (now : Instant) (peer_id : PeerId)
  | cancelChallenge (peer_id : PeerId)
  | declinePeerChallenge (peer_id : PeerId)
  | injectEvent (peer_id : PeerId) (event : IpchessHandlerEventOut)
  | injectConnected (peer_id : PeerId)
  | injectDisconnected (peer_id : PeerId)
  | addAddress (peer_id : PeerId) (addr : Multiaddr)
  | pollOp (now : Instant)
deriving DecidableEq

/-- Apply one behaviour operation to the behaviour state. -/
def BehaviourOp.apply (sha256 : Bytes → Bytes) : BehaviourOp → Ipchess → Ipchess
  | .challengePeer rng now p, s => s.challenge_peer sha256 rng now p
  | .acceptPeerChallenge rng now p, s => s.accept_peer_challenge rng now p
  | .cancelChallenge p, s => s.cancel_challenge p
  | .declinePeerChallenge p, s => s.decline_peer_challenge p
  | .injectEvent p ev, s => s.inject_event sha256 p ev
  | .injectConnected p, s => s.inject_connected p
  | .injectDisconnected p, s => s.inject_disconnected p
  | .addAddress p a, s => s.add_address p a
  | .pollOp now, s => (s.poll now).2

/-- The peer an operation is addressed to or triggered by; none for poll. -/
def BehaviourOp.peerOf : BehaviourOp → Option PeerId
  | .challengePeer _ _ p => some p
  | .acceptPeerChallenge _ _ p => some p
  | .cancelChallenge p => some p
  | .declinePeerChallenge p => some p
  | .injectEvent p _ => some p
  | .injectConnected p => some p
  | .injectDisconnected p => some p
  | .addAddress p _ => some p
  | .pollOp _ => none

/-! Association-list lemmas, the model counterparts of the HashMap laws. -/

lemma alookup_filter_self {α : Type} (k : PeerId) (m : List (PeerId × α)) :
    alookup k (m.filter (fun e => e.1 ≠ k)) = none := by
  induction m with
  | nil => rfl
  | cons e rest ih =>
    obtain ⟨k0, v⟩ := e
    by_cases hk0 : k0 = k
    · simpa [List.filter_cons, hk0] using ih
    · simpa [List.filter_cons, hk0, alookup] using ih

lemma alookup_filter_ne {α : Type} {k k' : PeerId} (m : List (PeerId × α)) (h : k' ≠ k) :
    alookup k' (m.filter (fun e => e.1 ≠ k)) = alookup k' m := by
  induction m with
  | nil => rfl
  | cons e rest ih =>
    obtain ⟨k0, v⟩ := e
    by_cases hk0 : k0 = k
    · have hne : ¬ k0 = k' := fun hc => h (hc ▸ hk0)
      rw [List.filter_cons, if_neg (by simp [hk0]), ih]
      simp [alookup, hne]
    · rw [List.filter_cons, if_pos (by simp [hk0])]
      simp only [alookup, ih]

lemma alookup_ainsert_self {α : Type} (k : PeerId) (v : α) (m : List (PeerId × α)) :
    alookup k (ainsert k v m) = some v := by
  simp [ainsert, alookup]

lemma alookup_ainsert_ne {α : Type} {k k' : PeerId} (v : α) (m : List (PeerId × α))
    (h : k' ≠ k) : alookup k' (ainsert k v m) = alookup k' m := by
  have hne : ¬ k = k' := fun hc => h hc.symm
  show alookup k' ((k, v) :: m.filter (fun e => e.1 ≠ k)) = alookup k' m
  simp only [alookup, if_neg hne]
  exact alookup_filter_ne m h

lemma alookup_aremove_self {α : Type} (k : PeerId) (m : List (PeerId × α)) :
    alookup k (aremove k m) = none :=
  alookup_filter_self k m

lemma alookup_aremove_ne {α : Type} {k k' : PeerId} (m : List (PeerId × α))
    (h : k' ≠ k) : alookup k' (aremove k m) = alookup k' m :=
  alookup_filter_ne m h

lemma alookup_mem {α : Type} {k : PeerId} {v : α} {m : List (PeerId × α)}
    (h : alookup k m = some v) : (k, v) ∈ m := by
  induction m with
  | nil => simp [alookup] at h
  | cons e rest ih =>
    obtain ⟨k0, v0⟩ := e
    by_cases hk0 : k0 = k
    · subst hk0
      simp [alookup] at h
      simp [h]
    · simp [alookup, hk0] at h
      exact List.mem_cons_of_mem _ (ih h)

lemma mem_alookup_of_nodup {α : Type} {k : PeerId} {v : α} {m : List (PeerId × α)}
    (hnd : (m.map Prod.fst).Nodup) (h : (k, v) ∈ m) : alookup k m = some v := by
  induction m with
  | nil => simp at h
  | cons e rest ih =>
    obtain ⟨k0, v0⟩ := e
    simp only [List.map_cons, List.nodup_cons] at hnd
    rcases List.mem_cons.mp h with h1 | h1
    · injection h1 with hk hv
      subst hk; subst hv
      simp [alookup]
    · by_cases hk0 : k0 = k
      · subst hk0
        exact absurd (List.mem_map.mpr ⟨(k0, v), h1, rfl⟩) hnd.1
      · simpa [alookup, hk0] using ih hnd.2 h1

/-! Lemmas about the timeout-clearing loops of the behaviour poll. -/

lemma clearOutbound_config (keys : List PeerId) (s : Ipchess) :
    (clearOutbound keys s).config = s.config := by
  induction keys generalizing s with
  | nil => rfl
  | cons p rest ih => simpa [clearOutbound] using ih _

lemma clearOutbound_inbound (keys : List PeerId) (s : Ipchess) :
    (clearOutbound keys s).inbound_challenges = s.inbound_challenges := by
  induction keys generalizing s with
  | nil => rfl
  | cons p rest ih => simpa [clearOutbound] using ih _

lemma clearOutbound_events (keys : List PeerId) (s : Ipchess) :
    (clearOutbound keys s).events = s.events ++
      keys.map (fun p => .GenerateEvent (.Error (.ChallengeTimeout p .Outbound))) := by
  induction keys generalizing s with
  | nil => simp [clearOutbound]
  | cons p rest ih =>
    simp [clearOutbound] at ih ⊢
    rw [ih]
    simp

lemma clearOutbound_alookup (keys : List PeerId) (s : Ipchess) (P : PeerId) :
    alookup P (clearOutbound keys s).outbound_challenges =
      if P ∈ keys then none else alookup P s.outbound_challenges := by
  induction keys generalizing s with
  | nil => simp [clearOutbound]
  | cons p rest ih =>
    simp only [clearOutbound, List.foldl_cons] at ih ⊢
    rw [ih]
    by_cases hP : P = p
    · subst hP
      simp [alookup_aremove_self]
    · simp [List.mem_cons, hP, alookup_aremove_ne _ hP]

lemma clearInbound_config (keys : List PeerId) (s : Ipchess) :
    (clearInbound keys s).config = s.config := by
  induction keys generalizing s with
  | nil => rfl
  | cons p rest ih => simpa [clearInbound] using ih _

lemma clearInbound_outbound (keys : List PeerId) (s : Ipchess) :
    (clearInbound keys s).outbound_challenges = s.outbound_challenges := by
  induction keys generalizing s with
  | nil => rfl
  | cons p rest ih => simpa [clearInbound] using ih _

lemma clearInbound_events (keys : List PeerId) (s : Ipchess) :
    (clearInbound keys s).events = s.events ++
      keys.map (fun p => .GenerateEvent (.Error (.ChallengeTimeout p .Inbound))) := by
  induction keys generalizing s with
  | nil => simp [clearInbound]
  | cons p rest ih =>
    simp [clearInbound] at ih ⊢
    rw [ih]
    simp

lemma clearInbound_alookup (keys : List PeerId) (s : Ipchess) (P : PeerId) :
    alookup P (clearInbound keys s).inbound_challenges =
      if P ∈ keys then none else alookup P s.inbound_challenges := by
  induction keys generalizing s with
  | nil => simp [clearInbound]
  | cons p rest ih =>
    simp only [clearInbound, List.foldl_cons] at ih ⊢
    rw [ih]
    by_cases hP : P = p
    · subst hP
      simp [alookup_aremove_self]
    · simp [List.mem_cons, hP, alookup_aremove_ne _ hP]

lemma mem_timedOutOutboundKeys {now : Instant} {timeout : Nat}
    {m : List (PeerId × OutboundChallenge)} {P : PeerId} :
    P ∈ timedOutOutboundKeys now timeout m ↔
      ∃ c, (P, c) ∈ m ∧ now - c.timestamp > timeout := by
  simp only [timedOutOutboundKeys, List.mem_filterMap]
  constructor
  · rintro ⟨e, he, heq⟩
    by_cases hc : now - e.2.timestamp > timeout
    · simp [hc] at heq
      exact ⟨e.2, by rw [← heq]; exact he, hc⟩
    · simp [hc] at heq
  · rintro ⟨c, hc, hgt⟩
    exact ⟨(P, c), hc, by simp [hgt]⟩

lemma mem_timedOutInboundKeys {now : Instant} {timeout : Nat}
    {m : List (PeerId × InboundChallenge)} {P : PeerId} :
    P ∈ timedOutInboundKeys now timeout m ↔
      ∃ c r ts, (P, InboundChallenge.PendingPreimage c r ts) ∈ m ∧ now - ts > timeout := by
  simp only [timedOutInboundKeys, List.mem_filterMap]
  constructor
  · rintro ⟨e, he, heq⟩
    obtain ⟨q, ch⟩ := e
    cases ch with
    | Received c => simp at heq
    | PendingPreimage c r ts =>
      by_cases hc : now - ts > timeout
      · simp [hc] at heq
        exact ⟨c, r, ts, by simpa [heq] using he, hc⟩
      · simp [hc] at heq
  · rintro ⟨c, r, ts, hc, hgt⟩
    exact ⟨(P, .PendingPreimage c r ts), hc, by simp [hgt]⟩

lemma filter_ne_filter_eq {α : Type} (k : PeerId) (m : List (PeerId × α)) :
    (m.filter (fun e => e.1 ≠ k)).filter (fun e => e.1 = k) = [] := by
  induction m with
  | nil => rfl
  | cons e rest ih =>
    by_cases hk : e.1 = k
    · rw [List.filter_cons, if_neg (by simp [hk])]
      exact ih
    · rw [List.filter_cons, if_pos (by simp [hk]), List.filter_cons, if_neg (by simp [hk])]
      exact ih

/-- A concrete hash instantiation (the identity) used to evaluate the model in
closed statements; the behaviour is parametric in the digest function. -/
def sha256id : Bytes → Bytes := fun b => b

/-- Concrete state with an inbound challenge from peer 1 pending its preimage. -/
def sW1 : Ipchess :=
  { Ipchess.new with inbound_challenges := [(1, .PendingPreimage [2] [7] 0)] }

/-- C1: while the inbound slot of P is PendingPreimage{c, r}, a
ChallengeRevealReceived{p} from P clears the slot; if SHA-256(p) = c the
domain event ChallengeAccepted{P, (p, r)} is emitted, otherwise the handler
is sent the poison command and the CommitmentPreimageMismatch error is
emitted; and any ChallengeAccepted event this call adds has a preimage whose
digest equals c. -/
theorem reveal_commit_check (sha256 : Bytes → Bytes) (s : Ipchess) (P : PeerId)
    (c r : Bytes) (t : Instant) (p : Bytes)
    (h : alookup P s.inbound_challenges = some (.PendingPreimage c r t)) :
    alookup P (s.inject_event sha256 P (.ChallengeRevealReceived p)).inbound_challenges
      = none ∧
    (sha256 p = c →
      (s.inject_event sha256 P (.ChallengeRevealReceived p)).events =
        s.events ++ [.GenerateEvent (.ChallengeAccepted P { preimage := p, random := r })]) ∧
    (sha256 p ≠ c →
      (s.inject_event sha256 P (.ChallengeRevealReceived p)).events =
        s.events ++ [.NotifyHandler P .ChallengePoisoned,
          .GenerateEvent (.Error .ChallengeCommitmentPreimageMismatch)]) ∧
    (∀ pre rand,
      NBAction.GenerateEvent (.ChallengeAccepted P { preimage := pre, random := rand }) ∈
        (s.inject_event sha256 P (.ChallengeRevealReceived p)).events →
      NBAction.GenerateEvent (.ChallengeAccepted P { preimage := pre, random := rand }) ∈
        s.events ∨ sha256 pre = c) := by
  by_cases hm : sha256 p = c
  · refine ⟨?_, fun _ => ?_, fun hne => absurd hm hne, ?_⟩
    · simp [Ipchess.inject_event, h, hm, alookup_aremove_self]
    · simp [Ipchess.inject_event, h, hm]
    · intro pre rand hmem
      simp only [Ipchess.inject_event, h, hm, if_pos] at hmem
      rcases List.mem_append.mp hmem with h1 | h1
      · exact Or.inl h1
      · simp at h1
        obtain ⟨hpre, _⟩ := h1
        exact Or.inr (hpre ▸ hm)
  · refine ⟨?_, fun hc => absurd hc hm, fun _ => ?_, ?_⟩
    · simp [Ipchess.inject_event, h, hm, alookup_aremove_self]
    · simp [Ipchess.inject_event, h, hm]
    · intro pre rand hmem
      simp only [Ipchess.inject_event, h, hm, if_neg] at hmem
      rcases List.mem_append.mp hmem with h1 | h1
      · exact Or.inl h1
      · simp at h1

/-- Witness for C1 at a concrete matching reveal. -/
theorem reveal_commit_check_witness :
    alookup 1 sW1.inbound_challenges = some (.PendingPreimage [2] [7] 0) ∧
    (alookup 1 (sW1.inject_event sha256id 1
        (.ChallengeRevealReceived [2])).inbound_challenges = none ∧
     (sha256id [2] = [2] →
       (sW1.inject_event sha256id 1 (.ChallengeRevealReceived [2])).events =
         sW1.events ++
           [.GenerateEvent (.ChallengeAccepted 1 { preimage := [2], random := [7] })]) ∧
     (sha256id [2] ≠ [2] →
       (sW1.inject_event sha256id 1 (.ChallengeRevealReceived [2])).events =
         sW1.events ++ [.NotifyHandler 1 .ChallengePoisoned,
           .GenerateEvent (.Error .ChallengeCommitmentPreimageMismatch)]) ∧
     (∀ pre rand,
       NBAction.GenerateEvent (.ChallengeAccepted 1 { preimage := pre, random := rand }) ∈
         (sW1.inject_event sha256id 1 (.ChallengeRevealReceived [2])).events →
       NBAction.GenerateEvent (.ChallengeAccepted 1 { preimage := pre, random := rand }) ∈
         sW1.events ∨ sha256id pre = [2])) :=
  ⟨by decide, reveal_commit_check sha256id sW1 1 [2] [7] 0 [2] (by decide)⟩

/-- Concrete state with an inbound challenge from peer 1 still in Received. -/
def sC2 : Ipchess :=
  { Ipchess.new with inbound_challenges := [(1, .Received [5])] }

/-- C2 counterexample: a reveal arriving while the inbound slot of peer 1 is
Received clears the slot and sends the handler the poison command, but no
domain event at all is generated for the caller — the claimed
Error(ChallengePoisoned) emission does not happen (IpchessError has no such
variant). -/
theorem reveal_on_received_counterexample :
    alookup 1 (sC2.inject_event sha256id 1
        (.ChallengeRevealReceived [3])).inbound_challenges = none ∧
    (sC2.inject_event sha256id 1 (.ChallengeRevealReceived [3])).events =
      [.NotifyHandler 1 .ChallengePoisoned] ∧
    (∀ a ∈ (sC2.inject_event sha256id 1 (.ChallengeRevealReceived [3])).events,
      a.isGenerateEvent = false) := by decide

/-- C2 amended: while the inbound slot of P is Received{c}, a
ChallengeRevealReceived{p} from P clears the slot and sends the handler the
poison command, and nothing else: no domain error event is emitted. -/
theorem reveal_on_received_poisons (sha256 : Bytes → Bytes) (s : Ipchess) (P : PeerId)
    (c p : Bytes) (h : alookup P s.inbound_challenges = some (.Received c)) :
    alookup P (s.inject_event sha256 P (.ChallengeRevealReceived p)).inbound_challenges
      = none ∧
    (s.inject_event sha256 P (.ChallengeRevealReceived p)).events =
      s.events ++ [.NotifyHandler P .ChallengePoisoned] ∧
    (s.inject_event sha256 P (.ChallengeRevealReceived p)).outbound_challenges =
      s.outbound_challenges := by
  refine ⟨?_, ?_, ?_⟩
  · simp [Ipchess.inject_event, h, alookup_aremove_self]
  · simp [Ipchess.inject_event, h]
  · simp [Ipchess.inject_event, h]

/-- Witness for the amended C2 at a concrete input. -/
theorem reveal_on_received_poisons_witness :
    alookup 1 sC2.inbound_challenges = some (.Received [5]) ∧
    (alookup 1 (sC2.inject_event sha256id 1
        (.ChallengeRevealReceived [3])).inbound_challenges = none ∧
     (sC2.inject_event sha256id 1 (.ChallengeRevealReceived [3])).events =
       sC2.events ++ [.NotifyHandler 1 .ChallengePoisoned] ∧
     (sC2.inject_event sha256id 1 (.ChallengeRevealReceived [3])).outbound_challenges =
       sC2.outbound_challenges) :=
  ⟨by decide, reveal_on_received_poisons sha256id sC2 1 [5] [3] (by decide)⟩

/-- C4 counterexample: from the fresh state (no peer is connected, and the
behaviour tracks no connectivity at all), challenge_peer for peer 1 pushes the
Challenge handler command immediately into the action queue, emits no Dial
action, and the connection-established callback afterwards changes nothing —
there is no pending queue to replay. -/
theorem challenge_dial_counterexample :
    (Ipchess.new.challenge_peer sha256id [2] 0 1).events =
      [.NotifyHandler 1 (.Challenge [2])] ∧
    (∀ a ∈ (Ipchess.new.challenge_peer sha256id [2] 0 1).events,
      a.isDialPeer = false) ∧
    Ipchess.inject_connected 1 (Ipchess.new.challenge_peer sha256id [2] 0 1) =
      Ipchess.new.challenge_peer sha256id [2] 0 1 := by decide

/-- C4 amended: challenge(P) with an empty outbound slot appends the Challenge
handler command to the action queue immediately, regardless of connectivity;
it adds no Dial action, and inject_connected performs no state change. -/
theorem challenge_peer_immediate (sha256 : Bytes → Bytes) (rng : Bytes) (now : Instant)
    (P : PeerId) (s : Ipchess) (h : alookup P s.outbound_challenges = none) :
    (s.challenge_peer sha256 rng now P).events =
      s.events ++ [.NotifyHandler P (.Challenge (sha256 rng))] ∧
    alookup P (s.challenge_peer sha256 rng now P).outbound_challenges =
      some { preimage := rng, timestamp := now } ∧
    (∀ a ∈ (s.challenge_peer sha256 rng now P).events,
      a.isDialPeer = true → a ∈ s.events) ∧
    Ipchess.inject_connected P (s.challenge_peer sha256 rng now P) =
      s.challenge_peer sha256 rng now P := by
  have hc : acontains P s.outbound_challenges = false := by
    simp [acontains, h]
  refine ⟨?_, ?_, ?_, rfl⟩
  · simp [Ipchess.challenge_peer, hc]
  · simp [Ipchess.challenge_peer, hc, alookup_ainsert_self]
  · intro a ha hd
    simp only [Ipchess.challenge_peer, hc, Bool.false_eq_true, if_false] at ha
    rcases List.mem_append.mp ha with h1 | h1
    · exact h1
    · simp at h1
      subst h1
      simp [NBAction.isDialPeer] at hd

/-- Witness for the amended C4 at a concrete input. -/
theorem challenge_peer_immediate_witness :
    alookup 1 Ipchess.new.outbound_challenges = none ∧
    ((Ipchess.new.challenge_peer sha256id [2] 0 1).events =
       Ipchess.new.events ++ [.NotifyHandler 1 (.Challenge (sha256id [2]))] ∧
     alookup 1 (Ipchess.new.challenge_peer sha256id [2] 0 1).outbound_challenges =
       some { preimage := [2], timestamp := 0 } ∧
     (∀ a ∈ (Ipchess.new.challenge_peer sha256id [2] 0 1).events,
       a.isDialPeer = true → a ∈ Ipchess.new.events) ∧
     Ipchess.inject_connected 1 (Ipchess.new.challenge_peer sha256id [2] 0 1) =
       Ipchess.new.challenge_peer sha256id [2] 0 1) :=
  ⟨by decide, challenge_peer_immediate sha256id [2] 0 1 Ipchess.new (by decide)⟩

/-- C6: challenge(P) twice with no intervening state change is idempotent: the
second call changes nothing, and after the first call the queue gained exactly
one Challenge handler command and exactly one outbound slot for P exists. -/
theorem challenge_peer_idem (sha256 : Bytes → Bytes) (rng1 rng2 : Bytes)
    (now1 now2 : Instant) (P : PeerId) (s : Ipchess)
    (h : alookup P s.outbound_challenges = none) :
    (s.challenge_peer sha256 rng1 now1 P).challenge_peer sha256 rng2 now2 P =
      s.challenge_peer sha256 rng1 now1 P ∧
    (s.challenge_peer sha256 rng1 now1 P).events =
      s.events ++ [.NotifyHandler P (.Challenge (sha256 rng1))] ∧
    alookup P (s.challenge_peer sha256 rng1 now1 P).outbound_challenges =
      some { preimage := rng1, timestamp := now1 } ∧
    ((s.challenge_peer sha256 rng1 now1 P).outbound_challenges.filter
        (fun e => e.1 = P)).length = 1 := by
  have hc : acontains P s.outbound_challenges = false := by
    simp [acontains, h]
  have hout : (s.challenge_peer sha256 rng1 now1 P).outbound_challenges =
      ainsert P { preimage := rng1, timestamp := now1 } s.outbound_challenges := by
    simp [Ipchess.challenge_peer, hc]
  have dup_ignored : ∀ (rng : Bytes) (now : Instant) (s0 : Ipchess),
      acontains P s0.outbound_challenges = true →
      s0.challenge_peer sha256 rng now P = s0 := by
    intro rng now s0 hc0
    simp [Ipchess.challenge_peer, hc0]
  refine ⟨?_, ?_, ?_, ?_⟩
  · have hc2 : acontains P (s.challenge_peer sha256 rng1 now1 P).outbound_challenges
        = true := by
      simp [hout, acontains, alookup_ainsert_self]
    exact dup_ignored rng2 now2 _ hc2
  · simp [Ipchess.challenge_peer, hc]
  · simp [hout, alookup_ainsert_self]
  · rw [hout]
    show ((( P, ({ preimage := rng1, timestamp := now1 } : OutboundChallenge)) ::
      s.outbound_challenges.filter (fun e => e.1 ≠ P)).filter (fun e => e.1 = P)).length = 1
    rw [List.filter_cons, if_pos (by simp), filter_ne_filter_eq]
    rfl

/-- Witness for C6 at a concrete input. -/
theorem challenge_peer_idem_witness :
    alookup 1 Ipchess.new.outbound_challenges = none ∧
    (Ipchess.new.challenge_peer sha256id [2] 0 1).challenge_peer sha256id [9] 4 1 =
      Ipchess.new.challenge_peer sha256id [2] 0 1 :=
  ⟨by decide, (challenge_peer_idem sha256id [2] [9] 0 4 1 Ipchess.new (by decide)).1⟩

/-- Concrete state with an outbound challenge to peer 1, used to show the
behaviour does send the cancel command. -/
def sC3 : Ipchess :=
  { Ipchess.new with outbound_challenges := [(1, { preimage := [2], timestamp := 0 })] }

/-- C3: the wire payload union does have five variants with protobuf tags 1-5
and the three sending commands present in handler.rs translate to their
frames, but the handler inject has no arm for the ChallengeCanceled and
ChallengeDeclined commands (its input enum lacks them), even though the
behaviour sends exactly those commands: the mandated tag-4 and tag-5
translations are missing from handler.rs. -/
theorem handler_cancel_decline_missing :
    IpchessHandler.new.inject_event .ChallengeCanceled = none ∧
    IpchessHandler.new.inject_event .ChallengeDeclined = none ∧
    (sC3.cancel_challenge 1).events = [.NotifyHandler 1 .ChallengeCanceled] ∧
    IpchessHandler.new.inject_event (.Challenge [1]) =
      some { IpchessHandler.new with substream_states :=
        [.PendingOpen { payload := some (.Challenge { commitment := [1] }) }] } ∧
    IpchessHandler.new.inject_event (.ChallengeAccept [2]) =
      some { IpchessHandler.new with substream_states :=
        [.PendingOpen { payload := some (.ChallengeAccept { random := [2] }) }] } ∧
    IpchessHandler.new.inject_event (.ChallengeReveal [3]) =
      some { IpchessHandler.new with substream_states :=
        [.PendingOpen { payload := some (.ChallengeReveal { preimage := [3] }) }] } ∧
    ipchessproto.Payload.tag (.Challenge { commitment := [1] }) = 1 ∧
    ipchessproto.Payload.tag (.ChallengeAccept { random := [2] }) = 2 ∧
    ipchessproto.Payload.tag (.ChallengeReveal { preimage := [3] }) = 3 ∧
    ipchessproto.Payload.tag .ChallengeCancel = 4 ∧
    ipchessproto.Payload.tag .ChallengeDecline = 5 := by decide

/-- C10: the behaviour poll returns the front of a non-empty event queue,
leaving everything but the queue untouched; with an empty queue it returns
Pending and every event it leaves enqueued is a Timeout error — a timeout
detected by this call is only returned by a later call. -/
theorem poll_queue_first (now : Instant) (s : Ipchess) :
    (∀ e rest, s.events = e :: rest →
      s.poll now = (.Ready e, { s with events := rest })) ∧
    (s.events = [] →
      (s.poll now).1 = .Pending ∧
      ∀ a ∈ (s.poll now).2.events,
        ∃ Q d, a = NBAction.GenerateEvent (.Error (.ChallengeTimeout Q d))) := by
  constructor
  · intro e rest h
    simp [Ipchess.poll, h]
  · intro h
    constructor
    · simp [Ipchess.poll, h]
    · intro a ha
      simp only [Ipchess.poll, h] at ha
      rw [clearInbound_events, clearOutbound_events, h] at ha
      simp only [List.nil_append, List.mem_append, List.mem_map] at ha
      rcases ha with ⟨Q, _, rfl⟩ | ⟨Q, _, rfl⟩
      · exact ⟨Q, .Outbound, rfl⟩
      · exact ⟨Q, .Inbound, rfl⟩

/-- Concrete state for the C10 witness: one queued event. -/
def sW10 : Ipchess :=
  { Ipchess.new with events := [.GenerateEvent (.PeerChallenge 4)] }

/-- Witness for C10: a queued event is returned as is, slots untouched. -/
theorem poll_queue_first_witness :
    sW10.poll 9 = (.Ready (.GenerateEvent (.PeerChallenge 4)), { sW10 with events := [] }) :=
  (poll_queue_first 9 sW10).1 (.GenerateEvent (.PeerChallenge 4)) [] rfl

/-- C5: on a poll with an empty queue, every outbound challenge strictly older
than challenge_accept_timeout is cleared with a Timeout{P, Outbound} error
queued and younger ones survive; every PendingPreimage inbound challenge
strictly older than challenge_preimage_timeout is cleared with a
Timeout{P, Inbound} error queued and younger ones survive; a Received inbound
challenge is never cleared by timeout; the defaults are 5 minutes and 15
seconds. -/
theorem poll_timeout_clearing (now : Instant) (s : Ipchess)
    (hq : s.events = [])
    (hndO : (s.outbound_challenges.map Prod.fst).Nodup)
    (hndI : (s.inbound_challenges.map Prod.fst).Nodup) :
    (s.poll now).1 = .Pending ∧
    (∀ P pre ts,
      alookup P s.outbound_challenges = some { preimage := pre, timestamp := ts } →
      (now - ts > s.config.challenge_accept_timeout →
        alookup P (s.poll now).2.outbound_challenges = none ∧
        NBAction.GenerateEvent (.Error (.ChallengeTimeout P .Outbound)) ∈
          (s.poll now).2.events) ∧
      (¬ now - ts > s.config.challenge_accept_timeout →
        alookup P (s.poll now).2.outbound_challenges =
          some { preimage := pre, timestamp := ts })) ∧
    (∀ P c r ts,
      alookup P s.inbound_challenges = some (.PendingPreimage c r ts) →
      (now - ts > s.config.challenge_preimage_timeout →
        alookup P (s.poll now).2.inbound_challenges = none ∧
        NBAction.GenerateEvent (.Error (.ChallengeTimeout P .Inbound)) ∈
          (s.poll now).2.events) ∧
      (¬ now - ts > s.config.challenge_preimage_timeout →
        alookup P (s.poll now).2.inbound_challenges = some (.PendingPreimage c r ts))) ∧
    (∀ P c, alookup P s.inbound_challenges = some (.Received c) →
      alookup P (s.poll now).2.inbound_challenges = some (.Received c)) ∧
    IpchessConfig.default.challenge_accept_timeout = 5 * 60 ∧
    IpchessConfig.default.challenge_preimage_timeout = 15 := by
  have hpoll : s.poll now =
      (.Pending,
        clearInbound
          (timedOutInboundKeys now
            (clearOutbound (timedOutOutboundKeys now s.config.challenge_accept_timeout
              s.outbound_challenges) s).config.challenge_preimage_timeout
            (clearOutbound (timedOutOutboundKeys now s.config.challenge_accept_timeout
              s.outbound_challenges) s).inbound_challenges)
          (clearOutbound (timedOutOutboundKeys now s.config.challenge_accept_timeout
            s.outbound_challenges) s)) := by
    simp [Ipchess.poll, hq]
  have hkeys2 : timedOutInboundKeys now
      (clearOutbound (timedOutOutboundKeys now s.config.challenge_accept_timeout
        s.outbound_challenges) s).config.challenge_preimage_timeout
      (clearOutbound (timedOutOutboundKeys now s.config.challenge_accept_timeout
        s.outbound_challenges) s).inbound_challenges =
      timedOutInboundKeys now s.config.challenge_preimage_timeout
        s.inbound_challenges := by
    rw [clearOutbound_config, clearOutbound_inbound]
  have hout2 : (s.poll now).2.outbound_challenges =
      (clearOutbound (timedOutOutboundKeys now s.config.challenge_accept_timeout
        s.outbound_challenges) s).outbound_challenges := by
    rw [hpoll]
    exact clearInbound_outbound _ _
  have hin2 : ∀ P, alookup P (s.poll now).2.inbound_challenges =
      if P ∈ timedOutInboundKeys now s.config.challenge_preimage_timeout
          s.inbound_challenges then none
      else alookup P s.inbound_challenges := by
    intro P
    rw [hpoll]
    simp only [clearInbound_alookup, hkeys2, clearOutbound_inbound, clearOutbound_config]
  have hev2 : (s.poll now).2.events =
      (timedOutOutboundKeys now s.config.challenge_accept_timeout
        s.outbound_challenges).map
        (fun p => .GenerateEvent (.Error (.ChallengeTimeout p .Outbound))) ++
      (timedOutInboundKeys now s.config.challenge_preimage_timeout
        s.inbound_challenges).map
        (fun p => .GenerateEvent (.Error (.ChallengeTimeout p .Inbound))) := by
    rw [hpoll]
    simp only [clearInbound_events, clearOutbound_events, hkeys2, hq, List.nil_append]
  refine ⟨by rw [hpoll], ?_, ?_, ?_, rfl, rfl⟩
  · intro P pre ts h
    constructor
    · intro hto
      have hmem : P ∈ timedOutOutboundKeys now s.config.challenge_accept_timeout
          s.outbound_challenges :=
        mem_timedOutOutboundKeys.mpr ⟨_, alookup_mem h, hto⟩
      refine ⟨?_, ?_⟩
      · rw [hout2, clearOutbound_alookup, if_pos hmem]
      · rw [hev2]
        exact List.mem_append_left _ (List.mem_map.mpr ⟨P, hmem, rfl⟩)
    · intro hto
      have hmem : P ∉ timedOutOutboundKeys now s.config.challenge_accept_timeout
          s.outbound_challenges := by
        intro hc
        obtain ⟨ch, hch, hgt⟩ := mem_timedOutOutboundKeys.mp hc
        have heq := mem_alookup_of_nodup hndO hch
        rw [h] at heq
        injection heq with heq
        rw [← heq] at hgt
        exact hto hgt
      rw [hout2, clearOutbound_alookup, if_neg hmem, h]
  · intro P c r ts h
    constructor
    · intro hto
      have hmem : P ∈ timedOutInboundKeys now s.config.challenge_preimage_timeout
          s.inbound_challenges :=
        mem_timedOutInboundKeys.mpr ⟨c, r, ts, alookup_mem h, hto⟩
      refine ⟨?_, ?_⟩
      · rw [hin2, if_pos hmem]
      · rw [hev2]
        exact List.mem_append_right _ (List.mem_map.mpr ⟨P, hmem, rfl⟩)
    · intro hto
      have hmem : P ∉ timedOutInboundKeys now s.config.challenge_preimage_timeout
          s.inbound_challenges := by
        intro hc
        obtain ⟨c0, r0, ts0, hch, hgt⟩ := mem_timedOutInboundKeys.mp hc
        have heq := mem_alookup_of_nodup hndI hch
        rw [h] at heq
        injection heq with heq
        injection heq with h1 h2 h3
        rw [h3] at hto
        exact hto hgt
      rw [hin2, if_neg hmem, h]
  · intro P c h
    have hmem : P ∉ timedOutInboundKeys now s.config.challenge_preimage_timeout
        s.inbound_challenges := by
      intro hc
      obtain ⟨c0, r0, ts0, hch, hgt⟩ := mem_timedOutInboundKeys.mp hc
      have := mem_alookup_of_nodup hndI hch
      rw [h] at this
      exact InboundChallenge.noConfusion (Option.some.inj this)
    rw [hin2, if_neg hmem, h]

/-- Concrete state for the C5 witness: a stale outbound challenge to peer 1,
a stale PendingPreimage from peer 2 and a Received challenge from peer 3. -/
def sW5 : Ipchess :=
  { Ipchess.new with
    outbound_challenges := [(1, { preimage := [2], timestamp := 0 })],
    inbound_challenges := [(2, .PendingPreimage [3] [4] 0), (3, .Received [6])] }

/-- Witness for C5 at time 1000 with the default timeouts. -/
theorem poll_timeout_clearing_witness :
    sW5.events = [] ∧
    (sW5.poll 1000).1 = .Pending ∧
    alookup 1 (sW5.poll 1000).2.outbound_challenges = none ∧
    NBAction.GenerateEvent (.Error (.ChallengeTimeout 1 .Outbound)) ∈
      (sW5.poll 1000).2.events ∧
    alookup 2 (sW5.poll 1000).2.inbound_challenges = none ∧
    NBAction.GenerateEvent (.Error (.ChallengeTimeout 2 .Inbound)) ∈
      (sW5.poll 1000).2.events ∧
    alookup 3 (sW5.poll 1000).2.inbound_challenges = some (.Received [6]) := by
  have H := poll_timeout_clearing 1000 sW5 (by decide) (by decide) (by decide)
  have H1 := (H.2.1 1 [2] 0 (by decide)).1 (by decide)
  have H2 := (H.2.2.1 2 [3] [4] 0 (by decide)).1 (by decide)
  have H3 := H.2.2.2.1 3 [6] (by decide)
  exact ⟨rfl, H.1, H1.1, H1.2, H2.1, H2.2, H3⟩

lemma apply_frame (sha256 : Bytes → Bytes) (op : BehaviourOp) (s : Ipchess)
    (P Q : PeerId) (hP : op.peerOf = some P) (hQ : Q ≠ P) :
    alookup Q (op.apply sha256 s).outbound_challenges = alookup Q s.outbound_challenges ∧
    alookup Q (op.apply sha256 s).inbound_challenges = alookup Q s.inbound_challenges := by
  cases op with
  | challengePeer rng now p =>
    simp only [BehaviourOp.peerOf, Option.some.injEq] at hP
    subst hP
    by_cases hc : acontains p s.outbound_challenges
    · simp [BehaviourOp.apply, Ipchess.challenge_peer, hc]
    · simp [BehaviourOp.apply, Ipchess.challenge_peer, hc, alookup_ainsert_ne _ _ hQ]
  | acceptPeerChallenge rng now p =>
    simp only [BehaviourOp.peerOf, Option.some.injEq] at hP
    subst hP
    rcases hl : alookup p s.inbound_challenges with _ | ch
    · simp [BehaviourOp.apply, Ipchess.accept_peer_challenge, hl]
    · cases ch <;>
        simp [BehaviourOp.apply, Ipchess.accept_peer_challenge, hl,
          alookup_ainsert_ne _ _ hQ, alookup_aremove_ne _ hQ]
  | cancelChallenge p =>
    simp only [BehaviourOp.peerOf, Option.some.injEq] at hP
    subst hP
    by_cases hc : acontains p s.outbound_challenges <;>
      simp [BehaviourOp.apply, Ipchess.cancel_challenge, hc, alookup_aremove_ne _ hQ]
  | declinePeerChallenge p =>
    simp only [BehaviourOp.peerOf, Option.some.injEq] at hP
    subst hP
    by_cases hc : acontains p s.inbound_challenges <;>
      simp [BehaviourOp.apply, Ipchess.decline_peer_challenge, hc, alookup_aremove_ne _ hQ]
  | injectEvent p ev =>
    simp only [BehaviourOp.peerOf, Option.some.injEq] at hP
    subst hP
    cases ev with
    | ChallengeReceived cm =>
      simp [BehaviourOp.apply, Ipchess.inject_event, alookup_ainsert_ne _ _ hQ]
    | ChallengeRevealReceived pre =>
      rcases hl : alookup p s.inbound_challenges with _ | ch
      · simp [BehaviourOp.apply, Ipchess.inject_event, hl]
      · cases ch with
        | Received c =>
          simp [BehaviourOp.apply, Ipchess.inject_event, hl, alookup_aremove_ne _ hQ]
        | PendingPreimage c r t =>
          by_cases hm : sha256 pre = c <;>
            simp [BehaviourOp.apply, Ipchess.inject_event, hl, hm, alookup_aremove_ne _ hQ]
    | ChallengeAccepted rnd =>
      rcases hl : alookup p s.outbound_challenges with _ | ch <;>
        simp [BehaviourOp.apply, Ipchess.inject_event, hl, alookup_aremove_ne _ hQ]
    | ChallengeCanceled =>
      by_cases hc : acontains p s.inbound_challenges <;>
        simp [BehaviourOp.apply, Ipchess.inject_event, hc, alookup_aremove_ne _ hQ]
    | ChallengeDeclined =>
      by_cases hc : acontains p s.outbound_challenges <;>
        simp [BehaviourOp.apply, Ipchess.inject_event, hc, alookup_aremove_ne _ hQ]
  | injectConnected p =>
    exact ⟨rfl, rfl⟩
  | injectDisconnected p =>
    exact ⟨rfl, rfl⟩
  | addAddress p a =>
    exact ⟨rfl, rfl⟩
  | pollOp now =>
    simp [BehaviourOp.peerOf] at hP

/-- C9: per-peer isolation.  Every behaviour operation addressed to or
triggered by peer P — local challenge, accept, cancel, decline, a connect or
disconnect callback, an added address, or any inbound handler event from P
including protocol violations — leaves the outbound and inbound challenge
slots of every other peer Q unchanged. -/
theorem per_peer_isolation (sha256 : Bytes → Bytes) (op : BehaviourOp) (s : Ipchess)
    (P Q : PeerId) (hP : op.peerOf = some P) (hQ : Q ≠ P) :
    alookup Q (op.apply sha256 s).outbound_challenges = alookup Q s.outbound_challenges ∧
    alookup Q (op.apply sha256 s).inbound_challenges = alookup Q s.inbound_challenges :=
  apply_frame sha256 op s P Q hP hQ

/-- Concrete state for the C9 witness: peer 1 and peer 2 each have slots. -/
def sW9 : Ipchess :=
  { Ipchess.new with
    outbound_challenges := [(2, { preimage := [8], timestamp := 5 })],
    inbound_challenges := [(1, .PendingPreimage [3] [4] 0), (2, .Received [6])] }

/-- Witness for C9: a protocol violation by peer 1 (a reveal that does not
match the commitment) leaves the slots of peer 2 unchanged. -/
theorem per_peer_isolation_witness :
    (BehaviourOp.injectEvent 1 (.ChallengeRevealReceived [9])).peerOf = some 1 ∧
    (2 : PeerId) ≠ 1 ∧
    (alookup 2 ((BehaviourOp.injectEvent 1
        (.ChallengeRevealReceived [9])).apply sha256id sW9).outbound_challenges =
      alookup 2 sW9.outbound_challenges ∧
     alookup 2 ((BehaviourOp.injectEvent 1
        (.ChallengeRevealReceived [9])).apply sha256id sW9).inbound_challenges =
      alookup 2 sW9.inbound_challenges) :=
  ⟨rfl, by decide,
    per_peer_isolation sha256id (.injectEvent 1 (.ChallengeRevealReceived [9])) sW9 1 2
      rfl (by decide)⟩

lemma poll_inbound_some {now : Instant} {s : Ipchess} {P : PeerId} {v : InboundChallenge}
    (h : alookup P (s.poll now).2.inbound_challenges = some v) :
    alookup P s.inbound_challenges = some v := by
  rcases hq : s.events with _ | ⟨e, rest⟩
  · simp only [Ipchess.poll, hq] at h
    rw [clearInbound_alookup] at h
    split at h
    · exact Option.noConfusion h
    · rw [clearOutbound_inbound] at h
      exact h
  · simp only [Ipchess.poll, hq] at h
    exact h

/-- C7: provenance of a PendingPreimage slot.  Whatever single behaviour
operation produced a state whose inbound slot for P is PendingPreimage{c, r, t},
either the slot was already exactly that, or the operation was
accept_peer_challenge for P drawing exactly the random r at instant t on a
slot that held Received{c}: the transition into PendingPreimage happens only
at accept, transfers the stored commitment unchanged and records the random
drawn there. -/
theorem pending_preimage_provenance (sha256 : Bytes → Bytes) (op : BehaviourOp)
    (s : Ipchess) (P : PeerId) (c r : Bytes) (t : Instant)
    (h : alookup P (op.apply sha256 s).inbound_challenges =
      some (.PendingPreimage c r t)) :
    alookup P s.inbound_challenges = some (.PendingPreimage c r t) ∨
    (op = .acceptPeerChallenge r t P ∧
      alookup P s.inbound_challenges = some (.Received c)) := by
  cases op with
  | challengePeer rng now p =>
    have heq : ((BehaviourOp.challengePeer rng now p).apply sha256 s).inbound_challenges
        = s.inbound_challenges := by
      by_cases hc : acontains p s.outbound_challenges <;>
        simp [BehaviourOp.apply, Ipchess.challenge_peer, hc]
    rw [heq] at h
    exact Or.inl h
  | acceptPeerChallenge rng now p =>
    by_cases hp : p = P
    · subst hp
      rcases hl : alookup p s.inbound_challenges with _ | ch
      · simp only [BehaviourOp.apply, Ipchess.accept_peer_challenge, hl] at h
        exact Or.inl h
      · cases ch with
        | Received c0 =>
          simp only [BehaviourOp.apply, Ipchess.accept_peer_challenge, hl] at h
          rw [alookup_ainsert_self] at h
          injection h with h
          injection h with e1 e2 e3
          subst e1; subst e2; subst e3
          exact Or.inr ⟨rfl, rfl⟩
        | PendingPreimage c0 r0 t0 =>
          simp only [BehaviourOp.apply, Ipchess.accept_peer_challenge, hl] at h
          rw [alookup_ainsert_self] at h
          injection h with h
          injection h with e1 e2 e3
          subst e1; subst e2; subst e3
          exact Or.inl rfl
    · have := (apply_frame sha256 (.acceptPeerChallenge rng now p) s p P rfl
        (fun hc => hp hc.symm)).2
      rw [this] at h
      exact Or.inl h
  | cancelChallenge p =>
    have heq : ((BehaviourOp.cancelChallenge p).apply sha256 s).inbound_challenges
        = s.inbound_challenges := by
      by_cases hc : acontains p s.outbound_challenges <;>
        simp [BehaviourOp.apply, Ipchess.cancel_challenge, hc]
    rw [heq] at h
    exact Or.inl h
  | declinePeerChallenge p =>
    by_cases hp : p = P
    · subst hp
      by_cases hc : acontains p s.inbound_challenges
      · simp only [BehaviourOp.apply, Ipchess.decline_peer_challenge, hc, if_pos] at h
        rw [alookup_aremove_self] at h
        exact Option.noConfusion h
      · simp only [BehaviourOp.apply, Ipchess.decline_peer_challenge, hc,
          Bool.false_eq_true, if_false] at h
        exact Or.inl h
    · have := (apply_frame sha256 (.declinePeerChallenge p) s p P rfl
        (fun hc => hp hc.symm)).2
      rw [this] at h
      exact Or.inl h
  | injectEvent p ev =>
    by_cases hp : p = P
    · subst hp
      cases ev with
      | ChallengeReceived cm =>
        simp only [BehaviourOp.apply, Ipchess.inject_event] at h
        rw [alookup_ainsert_self] at h
        exact InboundChallenge.noConfusion (Option.some.inj h)
      | ChallengeRevealReceived pre =>
        rcases hl : alookup p s.inbound_challenges with _ | ch
        · simp only [BehaviourOp.apply, Ipchess.inject_event, hl] at h
          exact Or.inl h
        · cases ch with
          | Received c0 =>
            simp only [BehaviourOp.apply, Ipchess.inject_event, hl] at h
            rw [alookup_aremove_self] at h
            exact Option.noConfusion h
          | PendingPreimage c0 r0 t0 =>
            by_cases hm : sha256 pre = c0 <;>
              simp [BehaviourOp.apply, Ipchess.inject_event, hl, hm,
                alookup_aremove_self] at h
      | ChallengeAccepted rnd =>
        rcases hl : alookup p s.outbound_challenges with _ | ch <;>
          · simp only [BehaviourOp.apply, Ipchess.inject_event, hl] at h
            exact Or.inl h
      | ChallengeCanceled =>
        by_cases hc : acontains p s.inbound_challenges
        · simp only [BehaviourOp.apply, Ipchess.inject_event, hc, if_pos] at h
          rw [alookup_aremove_self] at h
          exact Option.noConfusion h
        · simp only [BehaviourOp.apply, Ipchess.inject_event, hc,
            Bool.false_eq_true, if_false] at h
          exact Or.inl h
      | ChallengeDeclined =>
        by_cases hc : acontains p s.outbound_challenges <;>
          · simp only [BehaviourOp.apply, Ipchess.inject_event, hc,
              Bool.false_eq_true, if_false] at h
            exact Or.inl h
    · have := (apply_frame sha256 (.injectEvent p ev) s p P rfl
        (fun hc => hp hc.symm)).2
      rw [this] at h
      exact Or.inl h
  | injectConnected p =>
    exact Or.inl h
  | injectDisconnected p =>
    exact Or.inl h
  | addAddress p a =>
    exact Or.inl h
  | pollOp now =>
    exact Or.inl (poll_inbound_some h)

/-- Concrete state for the C7 witness: an inbound challenge from peer 1. -/
def sW7 : Ipchess :=
  { Ipchess.new with inbound_challenges := [(1, .Received [5])] }

/-- Witness for C7: accepting the stored challenge produces the
PendingPreimage slot with the same commitment and the drawn random. -/
theorem pending_preimage_provenance_witness :
    alookup 1 ((BehaviourOp.acceptPeerChallenge [9] 3 1).apply
        sha256id sW7).inbound_challenges = some (.PendingPreimage [5] [9] 3) ∧
    (alookup 1 sW7.inbound_challenges = some (.PendingPreimage [5] [9] 3) ∨
     (BehaviourOp.acceptPeerChallenge [9] 3 1 = .acceptPeerChallenge [9] 3 1 ∧
      alookup 1 sW7.inbound_challenges = some (.Received [5]))) :=
  ⟨by decide,
    pending_preimage_provenance sha256id (.acceptPeerChallenge [9] 3 1) sW7 1 [5] [9] 3
      (by decide)⟩

lemma poll_flagged (env : PollEnv) (h : IpchessHandler)
    (hf : h.handler_error_received = true) :
    h.poll env = some (.Close .Poisoned, h) := by
  simp [IpchessHandler.poll, hf]

lemma handlerOp_flag_mono (op : HandlerOp) (h h2 : IpchessHandler)
    (happ : op.apply h = some h2) (hf : h.handler_error_received = true) :
    h2.handler_error_received = true := by
  cases op with
  | injectEvent e =>
    cases e with
    | Challenge c =>
      simp only [HandlerOp.apply, IpchessHandler.inject_event, Option.some.injEq] at happ
      rw [← happ]
      exact hf
    | ChallengeAccept a =>
      simp only [HandlerOp.apply, IpchessHandler.inject_event, Option.some.injEq] at happ
      rw [← happ]
      exact hf
    | ChallengeReveal r =>
      simp only [HandlerOp.apply, IpchessHandler.inject_event, Option.some.injEq] at happ
      rw [← happ]
      exact hf
    | ChallengePoisoned =>
      simp only [HandlerOp.apply, IpchessHandler.inject_event, Option.some.injEq] at happ
      rw [← happ]
    | ChallengeCanceled =>
      simp only [HandlerOp.apply, IpchessHandler.inject_event] at happ
      exact Option.noConfusion happ
    | ChallengeDeclined =>
      simp only [HandlerOp.apply, IpchessHandler.inject_event] at happ
      exact Option.noConfusion happ
  | negotiatedInbound fut =>
    simp only [HandlerOp.apply, IpchessHandler.inject_fully_negotiated_inbound,
      Option.some.injEq] at happ
    rw [← happ]
    exact hf
  | negotiatedOutbound fut msg =>
    simp only [HandlerOp.apply, IpchessHandler.inject_fully_negotiated_outbound,
      Option.some.injEq] at happ
    rw [← happ]
    exact hf
  | dialUpgradeError =>
    simp only [HandlerOp.apply, IpchessHandler.inject_dial_upgrade_error,
      Option.some.injEq] at happ
    rw [← happ]
    exact hf
  | pollOp env =>
    have hpoll := poll_flagged env h hf
    simp only [HandlerOp.apply, hpoll, Option.map_some] at happ
    injection happ with happ
    rw [← happ]
    exact hf

lemma applyHandlerOps_flag (ops : List HandlerOp) (h h2 : IpchessHandler)
    (happ : applyHandlerOps ops h = some h2)
    (hf : h.handler_error_received = true) :
    h2.handler_error_received = true := by
  induction ops generalizing h with
  | nil =>
    simp only [applyHandlerOps, Option.some.injEq] at happ
    rw [← happ]
    exact hf
  | cons op rest ih =>
    simp only [applyHandlerOps] at happ
    rcases hmid : op.apply h with _ | hm
    · rw [hmid] at happ
      exact Option.noConfusion happ
    · rw [hmid] at happ
      exact ih hm happ (handlerOp_flag_mono op h hm hmid hf)

/-- C8: the handler poison flag is one-way.  Once the poison command has set
handler_error_received, after any sequence of further handler operations the
flag is still set, every poll returns Close(Poisoned), and in particular no
poll ever again returns Pending, a Custom out-event, or an outbound
substream request. -/
theorem handler_poison_one_way (ops : List HandlerOp) (h h2 : IpchessHandler)
    (env : PollEnv) (hf : h.handler_error_received = true)
    (happ : applyHandlerOps ops h = some h2) :
    h2.handler_error_received = true ∧
    h2.poll env = some (.Close .Poisoned, h2) ∧
    (∀ out h3, h2.poll env = some (out, h3) →
      out ≠ .Pending ∧ (∀ e, out ≠ .Custom e) ∧
      (∀ m, out ≠ .OutboundSubstreamRequest m)) := by
  have hf2 := applyHandlerOps_flag ops h h2 happ hf
  refine ⟨hf2, poll_flagged env h2 hf2, ?_⟩
  intro out h3 hp
  rw [poll_flagged env h2 hf2] at hp
  injection hp with hp
  injection hp with hp1 hp2
  rw [← hp1]
  exact ⟨by simp, fun e => by simp, fun m => by simp⟩

/-- Environment for the C8 witness: every future is still pending. -/
def envW : PollEnv :=
  { sendRes := fun _ => .pending, recvRes := fun _ => .pending, now := 0 }

/-- A handler that has received the poison command. -/
def hpoisW : IpchessHandler :=
  { IpchessHandler.new with handler_error_received := true }

/-- The handler state after the witness operations are applied. -/
def h2W : IpchessHandler :=
  { hpoisW with substream_states :=
      [.PendingOpen { payload := some (.Challenge { commitment := [1] }) }] }

/-- Operations for the C8 witness: a poll and a further challenge command. -/
def opsW : List HandlerOp := [.pollOp envW, .injectEvent (.Challenge [1])]

/-- Witness for C8 at a concrete poisoned handler and operation sequence. -/
theorem handler_poison_one_way_witness :
    hpoisW.handler_error_received = true ∧
    applyHandlerOps opsW hpoisW = some h2W ∧
    (h2W.handler_error_received = true ∧
     h2W.poll envW = some (.Close .Poisoned, h2W) ∧
     (∀ out h3, h2W.poll envW = some (out, h3) →
       out ≠ .Pending ∧ (∀ e, out ≠ .Custom e) ∧
       (∀ m, out ≠ .OutboundSubstreamRequest m))) :=
  ⟨rfl, rfl, handler_poison_one_way opsW hpoisW h2W envW rfl rfl⟩

end IpchessDaemon
